import Mathlib

/-!
Shallow embedding of the download-and-merge orchestration engine of
`ena-dl.py`, together with theorems settling the specification claims.

Modelling conventions:

* File contents and paths are `String`s; the local file system is a map
  `String → Option String` (path to content, `none` when absent).
* The two transfer mechanisms (Aspera and wget) are abstracted by an
  oracle `Nat → Bool → Option String` giving, for the n-th transfer
  attempt of a fetch (`true` = the FTP/wget method, `false` = the Aspera
  method), the md5 of the file the transfer left at the destination
  (`none` when the transfer left no file).  The md5 utility is modelled
  as returning exactly that value.
* The `while not success` loop of `download_fastq` (source lines
  105-125) is translated into two structurally recursive functions, one
  per active method, whose `Nat` argument counts the attempts the
  per-method retry budget still allows before the method is abandoned
  (`max_retry + 1` attempts per method, since the source increments
  `retries` and only gives up once `retries > max_retry`).
-/

namespace EnaDl

/-- The portion of a path after the last slash, as computed by
`os.path.basename` (source lines 98 and 263). -/
def basenameChars (l : List Char) : List Char :=
  l.foldl (fun acc c => if c = '/' then [] else acc ++ [c]) []

/-- `os.path.basename` on strings. -/
def basename (s : String) : String := String.mk (basenameChars s.data)

/-- Python `str.endswith` (source lines 253 and 256). -/
def endsWithStr (s suf : String) : Bool := suf.data.isSuffixOf s.data

/-- Python `'miseq' in run['instrument_model'].lower()` (source line 283):
case-insensitive substring test. -/
def hasInfixChars (needle hay : List Char) : Bool :=
  hay.tails.any (fun t => needle.isPrefixOf t)

/-- The MiSeq marker test of source line 283. -/
def containsMiseq (instrument_model : String) : Bool :=
  hasInfixChars "miseq".data (instrument_model.data.map Char.toLower)

/-- The destination path `'{0}/{1}'.format(outdir, os.path.basename(fasp))`
of source lines 97-99. -/
def destPath (outdir fasp : String) : String := outdir ++ "/" ++ basename fasp

/-- Result of one call of `download_fastq` (source lines 92-129):
the `success` flag it returns, the transfer method of every attempt it
made in order (`false` = Aspera, `true` = FTP), the number of md5
verifications it performed, and the content at the destination path when
it returned (`none` when no file is left there). -/
structure DownloadResult where
  success : Bool
  methods : List Bool
  checks : Nat
  final : Option String
deriving DecidableEq, Repr

/-- The retry loop after the switch to the FTP method (`use_ftp = True`).
`left` is the number of attempts the retry budget still allows for this
method; when a mismatch exhausts it the loop `break`s with failure,
having removed the partial file (source lines 113-122). -/
def goFtp (oracle : Nat → Bool → Option String) (md5 : String) :
    Nat → Nat → DownloadResult
  | _, 0 => ⟨false, [], 0, none⟩
  | idx, left + 1 =>
    if oracle idx true = some md5 then ⟨true, [true], 1, some md5⟩
    else
      ⟨(goFtp oracle md5 (idx + 1) left).success,
       true :: (goFtp oracle md5 (idx + 1) left).methods,
       (goFtp oracle md5 (idx + 1) left).checks + 1,
       (goFtp oracle md5 (idx + 1) left).final⟩

/-- The retry loop while still on the primary (Aspera) method.  When a
mismatch exhausts the budget, the source switches to FTP exactly once and
resets the counter (source lines 117-120), which is the `goFtp` call with
a fresh budget of `max_retry + 1` attempts. -/
def goPrimary (oracle : Nat → Bool → Option String) (md5 : String)
    (max_retry : Nat) : Nat → Nat → DownloadResult
  | idx, 0 => goFtp oracle md5 idx (max_retry + 1)
  | idx, left + 1 =>
    if oracle idx false = some md5 then ⟨true, [false], 1, some md5⟩
    else
      ⟨(goPrimary oracle md5 max_retry (idx + 1) left).success,
       false :: (goPrimary oracle md5 max_retry (idx + 1) left).methods,
       (goPrimary oracle md5 max_retry (idx + 1) left).checks + 1,
       (goPrimary oracle md5 max_retry (idx + 1) left).final⟩

/-- `download_fastq` (source lines 92-129).  `existing` is the content at
the destination path when the call starts; when the file already exists
the source short-circuits to success without any transfer or md5 call
(source lines 101 and 126-127). -/
def download_fastq (oracle : Nat → Bool → Option String)
    (existing : Option String) (md5 : String) (max_retry : Nat) :
    DownloadResult :=
  match existing with
  | some c => ⟨true, [], 0, some c⟩
  | none => goPrimary oracle md5 max_retry 0 (max_retry + 1)

/-- Per-file classification of the main loop, source lines 246-268.
Returns the read slot of the file (`none` = skipped by `continue`,
`some false` = read-1, `some true` = read-2) together with the updated
`is_paired` flag (the whole-run reclassification of source line 266).
`num_files` is `len(aspera)`, the total number of physical files of the
run. -/
def classify_file (is_paired : Bool) (num_files : Nat)
    (run_accession path : String) : Option Bool × Bool :=
  if is_paired then
    if endsWithStr path "_2.fastq.gz" then (some true, is_paired)
    else if endsWithStr path "_1.fastq.gz" then (some false, is_paired)
    else
      if num_files = 1 ∧ basename path = run_accession ++ ".fastq.gz" then
        (some false, false)
      else (none, is_paired)
  else (some false, is_paired)

/-- Classification of all files of one run, threading the mutable
`is_paired` flag through the per-file loop. -/
def classifyFiles (num_files : Nat) (run_accession : String) :
    Bool → List String → List (Option Bool) × Bool
  | ip, [] => ([], ip)
  | ip, p :: ps =>
    let rc := classify_file ip num_files run_accession p
    let rest := classifyFiles num_files run_accession rc.2 ps
    (rc.1 :: rest.1, rest.2)

/-- Classification of a run from its metadata: `is_paired` starts as
`library_layout == 'PAIRED'` (source line 245). -/
def classifyRun (library_layout run_accession : String)
    (paths : List String) : List (Option Bool) × Bool :=
  classifyFiles paths.length run_accession
    (decide (library_layout = "PAIRED")) paths

/-- The local file system: path to content. -/
def FS : Type := String → Option String

/-- Creating or overwriting a file. -/
def fsWrite (fs : FS) (p c : String) : FS :=
  fun q => if q = p then some c else fs q

/-- Removing a file. -/
def fsRemove (fs : FS) (p : String) : FS :=
  fun q => if q = p then none else fs q

/-- External commands issued by `merge_runs` (source lines 132-143). -/
inductive Cmd where
  | cat (srcs : List String) (out : String)
  | rm (srcs : List String)
  | mv (src out : String)
deriving DecidableEq, Repr

/-- The command list `merge_runs` issues for a given input list. -/
def mergeCmds (runs : List String) (output : String) : List Cmd :=
  if 1 < runs.length then [Cmd.cat runs output, Cmd.rm runs]
  else
    match runs with
    | [] => []
    | x :: _ => [Cmd.mv x output]

/-- `merge_runs` (source lines 132-143).  More than one input: `cat` the
contents in order into `output` and `rm` the sources; exactly one input:
`mv` it to `output`.  `none` models a crash: `runs[0]` on an empty list
(IndexError) or `cat`/`mv` on a missing source (`run_command` raises on a
non-zero exit). -/
def merge_runs (fs : FS) (runs : List String) (output : String) :
    Option (FS × List Cmd) :=
  if 1 < runs.length then
    match runs.mapM fs with
    | none => none
    | some contents =>
      some (runs.foldl fsRemove (fsWrite fs output (String.join contents)),
        [Cmd.cat runs output, Cmd.rm runs])
  else
    match runs with
    | [] => none
    | x :: _ =>
      match fs x with
      | none => none
      | some c => some (fsWrite (fsRemove fs x) output c, [Cmd.mv x output])

/-- The per-group merge decision of the main block, source lines 300-318:
both slots non-empty and of equal length gives the paired outputs
`{name}_R1.fastq.gz` / `{name}_R2.fastq.gz`, anything else merges the
read-1 list alone into `{name}.fastq.gz`. -/
def mergeGroup (fs : FS) (outdir name : String) (r1s r2s : List String) :
    Option (FS × List Cmd) :=
  if 0 < r1s.length ∧ 0 < r2s.length then
    if r1s.length = r2s.length then
      match merge_runs fs r1s (outdir ++ "/" ++ name ++ "_R1.fastq.gz") with
      | none => none
      | some fc1 =>
        match merge_runs fc1.1 r2s (outdir ++ "/" ++ name ++ "_R2.fastq.gz") with
        | none => none
        | some fc2 => some (fc2.1, fc1.2 ++ fc2.2)
    else merge_runs fs r1s (outdir ++ "/" ++ name ++ ".fastq.gz")
  else merge_runs fs r1s (outdir ++ "/" ++ name ++ ".fastq.gz")

/-- The merge loop over `runs.items()` (source lines 300-318), in the
accumulator's insertion order. -/
def mergePhase (outdir : String) :
    FS → List (String × List String × List String) → Option FS
  | fs, [] => some fs
  | fs, g :: gs =>
    match mergeGroup fs outdir g.1 g.2.1 g.2.2 with
    | none => none
    | some fc => mergePhase outdir fc.1 gs

/-- The merge phase followed by `write_json(runs, ...)` (source line 319):
the data serialized into `ena-run-mergers.json` is the `runs` accumulator
itself, which the merge loop never modifies. -/
def mergeAndManifest (outdir : String) (fs : FS)
    (groups : List (String × List String × List String)) :
    Option (FS × List (String × List String × List String)) :=
  match mergePhase outdir fs groups with
  | none => none
  | some fsf => some (fsf, groups)

/-- The grouping accumulator: `runs` maps each group key, in insertion
order, to its read-1 and read-2 path lists, and `is_miseq` is the global
MiSeq flag (source lines 232-233 and 280-289). -/
structure GroupAcc where
  runs : List (String × List String × List String)
  is_miseq : Bool
deriving DecidableEq, Repr

/-- The keys currently present in the accumulator. -/
def groupKeys (acc : GroupAcc) : List String := acc.runs.map Prod.fst

/-- `name in runs` (source line 280). -/
def hasKey (runs : List (String × List String × List String))
    (name : String) : Bool :=
  runs.any (fun e => decide (e.1 = name))

/-- `runs[name]['r1'].append(fastq)` / `runs[name]['r2'].append(fastq)`
(source lines 286-289). -/
def appendRun (runs : List (String × List String × List String))
    (name : String) (isR2 : Bool) (fastq : String) :
    List (String × List String × List String) :=
  runs.map (fun e =>
    if e.1 = name then
      (e.1, if isR2 then (e.2.1, e.2.2 ++ [fastq])
            else (e.2.1 ++ [fastq], e.2.2))
    else e)

/-- One successful fetch reaching the grouping code, source lines
275-289: a missing key is created with empty slots and, only then, the
run's instrument model may set the global MiSeq flag; afterwards the
fetched path is appended to the proper slot. -/
def coordStep (acc : GroupAcc) (name instrument : String) (isR2 : Bool)
    (fastq : String) : GroupAcc :=
  if hasKey acc.runs name then
    ⟨appendRun acc.runs name isR2 fastq, acc.is_miseq⟩
  else
    ⟨appendRun (acc.runs ++ [(name, [], [])]) name isR2 fastq,
     if containsMiseq instrument then true else acc.is_miseq⟩

/-- Folding the grouping step over a sequence of successful fetches,
each given as (group key, instrument model, is-read-2, fetched path). -/
def coordFold (events : List (String × String × Bool × String))
    (acc : GroupAcc) : GroupAcc :=
  events.foldl (fun a e => coordStep a e.1 e.2.1 e.2.2.1 e.2.2.2) acc

/-- One metadata row, restricted to the fields the engine reads. -/
structure Record where
  run_accession : String
  sample_accession : String
  experiment_accession : String
  library_layout : String
  instrument_model : String
  fastq_aspera : List String
  fastq_ftp : List String
  fastq_md5 : List String
deriving DecidableEq, Repr

/-- The group key of a record: sample accession, overridden by the
experiment accession under `--group_by_experiment` (source lines
276-278). -/
def groupName (group_by_experiment : Bool) (r : Record) : String :=
  if group_by_experiment then r.experiment_accession else r.sample_accession

/-- The per-record file loop of the main block (source lines 246-296),
assuming the record invariant that `fastq_aspera` and `fastq_md5` are
parallel lists of equal length.  `fetchOk i` abstracts the success flag
`download_fastq` returns for file `i`.  `Except.error` is the
`sys.exit()` of source line 296 — it carries the accumulator as it stood
when the failed fetch aborted the program. -/
def processFilesGo (fetchOk : Nat → Bool) (gbe gbs : Bool)
    (outdir : String) (r : Record) :
    Bool → Nat → List (String × String) → GroupAcc →
    Except GroupAcc GroupAcc
  | _, _, [], acc => Except.ok acc
  | ip, i, pm :: rest, acc =>
    let rc := classify_file ip r.fastq_aspera.length r.run_accession pm.1
    match rc.1 with
    | none => processFilesGo fetchOk gbe gbs outdir r rc.2 (i + 1) rest acc
    | some isR2 =>
      if pm.2 ≠ "" then
        if fetchOk i then
          processFilesGo fetchOk gbe gbs outdir r rc.2 (i + 1) rest
            (if gbe || gbs then
              coordStep acc (groupName gbe r) r.instrument_model isR2
                (destPath outdir pm.1)
             else acc)
        else Except.error acc
      else processFilesGo fetchOk gbe gbs outdir r rc.2 (i + 1) rest acc

/-- All files of one record, starting from
`is_paired = (library_layout == 'PAIRED')` (source line 245). -/
def processFiles (fetchOk : Nat → Bool) (gbe gbs : Bool) (outdir : String)
    (r : Record) (acc : GroupAcc) : Except GroupAcc GroupAcc :=
  processFilesGo fetchOk gbe gbs outdir r
    (decide (r.library_layout = "PAIRED")) 0
    (r.fastq_aspera.zip r.fastq_md5) acc

/-- Termination of the record loop.  `exited code acc` models the program
stopping inside the loop: `sys.exit()` is called with no argument, so the
process exit status is 0. -/
inductive Outcome where
  | done (acc : GroupAcc)
  | exited (code : Nat) (acc : GroupAcc)
deriving DecidableEq, Repr

/-- The record loop of the main block (source lines 239-296).  A failed
fetch makes the program print the failure notice and call `sys.exit()`
(source lines 290-296), which terminates with exit status 0 and leaves
the remaining records unprocessed. -/
def processRecordsGo (fetchOk : Nat → Nat → Bool) (gbe gbs : Bool)
    (outdir : String) : Nat → List Record → GroupAcc → Outcome
  | _, [], acc => Outcome.done acc
  | idx, r :: rs, acc =>
    match processFiles (fetchOk idx) gbe gbs outdir r acc with
    | Except.error accStop => Outcome.exited 0 accStop
    | Except.ok acc2 => processRecordsGo fetchOk gbe gbs outdir (idx + 1) rs acc2

/-- The whole record loop from the initial empty accumulator. -/
def processRecords (fetchOk : Nat → Nat → Bool) (gbe gbs : Bool)
    (outdir : String) (records : List Record) : Outcome :=
  processRecordsGo fetchOk gbe gbs outdir 0 records ⟨[], false⟩

/-- A transfer oracle under which no attempt ever leaves a file with a
matching checksum: the terminal-failure scenario. -/
def oracleAllFail : Nat → Bool → Option String := fun _ _ => none

/-- A transfer oracle whose first attempt mismatches and whose second
attempt matches the checksum "h". -/
def oracleC3 : Nat → Bool → Option String :=
  fun i _ => if i = 1 then some "h" else none

/-- A file system holding a single file "a" with content "A". -/
def fsC2 : FS := fun q => if q = "a" then some "A" else none

/-- A file system holding files "a", "b", "c", "d". -/
def fs4 : FS := fun q =>
  if q = "a" then some "A" else if q = "b" then some "B"
  else if q = "c" then some "C" else if q = "d" then some "D" else none

/-- A file system holding files "a", "b", "c". -/
def fs5 : FS := fun q =>
  if q = "a" then some "A" else if q = "b" then some "B"
  else if q = "c" then some "C" else none

/-- A PAIRED record with one read-1 file whose fetch will fail. -/
def recFail : Record :=
  ⟨"ERR1", "SAMEA1", "ERX1", "PAIRED", "HiSeq",
   ["d/ERR1_1.fastq.gz"], ["f/ERR1_1.fastq.gz"], ["m1"]⟩

/-- A SINGLE record following `recFail`, never reached by the loop. -/
def recOk : Record :=
  ⟨"ERR2", "SAMEA1", "ERX1", "SINGLE", "MiSeq",
   ["d/ERR2.fastq.gz"], ["f/ERR2.fastq.gz"], ["m2"]⟩

/-- A failing FTP phase makes one attempt per unit of remaining budget,
all via FTP, and leaves no file behind. -/
theorem goFtp_failure (oracle : Nat → Bool → Option String) (md5 : String) :
    ∀ left idx, (goFtp oracle md5 idx left).success = false →
      goFtp oracle md5 idx left = ⟨false, List.replicate left true, left, none⟩ := by
  intro left
  induction left with
  | zero => intro idx _; rfl
  | succ left ih =>
    intro idx h
    rw [goFtp] at h ⊢
    by_cases hc : oracle idx true = some md5
    · rw [if_pos hc] at h
      simp at h
    · rw [if_neg hc] at h ⊢
      have h2 : (goFtp oracle md5 (idx + 1) left).success = false := h
      rw [ih (idx + 1) h2]
      simp [List.replicate_succ]

/-- A failing primary phase exhausts its budget on the primary method,
switches once, exhausts the FTP budget, and leaves no file behind. -/
theorem goPrimary_failure (oracle : Nat → Bool → Option String)
    (md5 : String) (m : Nat) :
    ∀ left idx, (goPrimary oracle md5 m idx left).success = false →
      goPrimary oracle md5 m idx left =
        ⟨false, List.replicate left false ++ List.replicate (m + 1) true,
         left + (m + 1), none⟩ := by
  intro left
  induction left with
  | zero =>
    intro idx h
    rw [goPrimary] at h ⊢
    rw [goFtp_failure oracle md5 (m + 1) idx h]
    simp
  | succ left ih =>
    intro idx h
    rw [goPrimary] at h ⊢
    by_cases hc : oracle idx false = some md5
    · rw [if_pos hc] at h
      simp at h
    · rw [if_neg hc] at h ⊢
      have h2 : (goPrimary oracle md5 m (idx + 1) left).success = false := h
      rw [ih (idx + 1) h2]
      simp [List.replicate_succ]
      omega

/-- A successful FTP phase returns the matched checksum as the final
file content. -/
theorem goFtp_success (oracle : Nat → Bool → Option String) (md5 : String) :
    ∀ left idx, (goFtp oracle md5 idx left).success = true →
      (goFtp oracle md5 idx left).final = some md5 := by
  intro left
  induction left with
  | zero => intro idx h; simp [goFtp] at h
  | succ left ih =>
    intro idx h
    rw [goFtp] at h ⊢
    by_cases hc : oracle idx true = some md5
    · rw [if_pos hc]
    · rw [if_neg hc] at h ⊢
      exact ih (idx + 1) h

/-- A successful fetch loop returns the matched checksum as the final
file content. -/
theorem goPrimary_success (oracle : Nat → Bool → Option String)
    (md5 : String) (m : Nat) :
    ∀ left idx, (goPrimary oracle md5 m idx left).success = true →
      (goPrimary oracle md5 m idx left).final = some md5 := by
  intro left
  induction left with
  | zero =>
    intro idx h
    rw [goPrimary] at h ⊢
    exact goFtp_success oracle md5 (m + 1) idx h
  | succ left ih =>
    intro idx h
    rw [goPrimary] at h ⊢
    by_cases hc : oracle idx false = some md5
    · rw [if_pos hc]
    · rw [if_neg hc] at h ⊢
      exact ih (idx + 1) h

/-- When every primary attempt mismatches, the loop runs the whole
primary budget and then continues as the FTP phase. -/
theorem goPrimary_switch (oracle : Nat → Bool → Option String)
    (md5 : String) (m : Nat) :
    ∀ left idx, (∀ i, i < left → oracle (idx + i) false ≠ some md5) →
      goPrimary oracle md5 m idx left =
        ⟨(goFtp oracle md5 (idx + left) (m + 1)).success,
         List.replicate left false ++ (goFtp oracle md5 (idx + left) (m + 1)).methods,
         left + (goFtp oracle md5 (idx + left) (m + 1)).checks,
         (goFtp oracle md5 (idx + left) (m + 1)).final⟩ := by
  intro left
  induction left with
  | zero => intro idx _; simp [goPrimary]
  | succ left ih =>
    intro idx hfail
    rw [goPrimary]
    have h0 : ¬ oracle idx false = some md5 := by
      have := hfail 0 (Nat.succ_pos left)
      simpa using this
    rw [if_neg h0]
    have hrec := ih (idx + 1) (fun i hi => by
      have := hfail (i + 1) (by omega)
      have e : idx + (i + 1) = idx + 1 + i := by omega
      rwa [e] at this)
    rw [hrec]
    have e2 : idx + 1 + left = idx + (left + 1) := by omega
    rw [e2]
    simp [List.replicate_succ]
    omega

/-- When the attempts before `k` mismatch and attempt `k` matches, the
FTP phase succeeds at attempt `k` with one method entry per attempt. -/
theorem goFtp_firstSuccess (oracle : Nat → Bool → Option String)
    (md5 : String) :
    ∀ k left idx, k < left →
      (∀ i, i < k → oracle (idx + i) true ≠ some md5) →
      oracle (idx + k) true = some md5 →
      goFtp oracle md5 idx left =
        ⟨true, List.replicate (k + 1) true, k + 1, some md5⟩ := by
  intro k
  induction k with
  | zero =>
    intro left idx hlt hfail hk
    match left, hlt with
    | l + 1, _ =>
      rw [goFtp]
      rw [Nat.add_zero] at hk
      rw [if_pos hk]
      rfl
  | succ k ih =>
    intro left idx hlt hfail hk
    match left, hlt with
    | l + 1, hlt =>
      rw [goFtp]
      have h0 : ¬ oracle idx true = some md5 := by
        have := hfail 0 (Nat.succ_pos k)
        simpa using this
      rw [if_neg h0]
      have hrec := ih l (idx + 1) (by omega)
        (fun i hi => by
          have := hfail (i + 1) (by omega)
          have e : idx + (i + 1) = idx + 1 + i := by omega
          rwa [e] at this)
        (by
          have e : idx + (k + 1) = idx + 1 + k := by omega
          rwa [e] at hk)
      rw [hrec]
      simp [List.replicate_succ]

/-- When the attempts before `k` mismatch and attempt `k` matches, the
primary phase succeeds at attempt `k` with one method entry per attempt. -/
theorem goPrimary_firstSuccess (oracle : Nat → Bool → Option String)
    (md5 : String) (m : Nat) :
    ∀ k left idx, k < left →
      (∀ i, i < k → oracle (idx + i) false ≠ some md5) →
      oracle (idx + k) false = some md5 →
      goPrimary oracle md5 m idx left =
        ⟨true, List.replicate (k + 1) false, k + 1, some md5⟩ := by
  intro k
  induction k with
  | zero =>
    intro left idx hlt hfail hk
    match left, hlt with
    | l + 1, _ =>
      rw [goPrimary]
      rw [Nat.add_zero] at hk
      rw [if_pos hk]
      rfl
  | succ k ih =>
    intro left idx hlt hfail hk
    match left, hlt with
    | l + 1, hlt =>
      rw [goPrimary]
      have h0 : ¬ oracle idx false = some md5 := by
        have := hfail 0 (Nat.succ_pos k)
        simpa using this
      rw [if_neg h0]
      have hrec := ih l (idx + 1) (by omega)
        (fun i hi => by
          have := hfail (i + 1) (by omega)
          have e : idx + (i + 1) = idx + 1 + i := by omega
          rwa [e] at this)
        (by
          have e : idx + (k + 1) = idx + 1 + k := by omega
          rwa [e] at hk)
      rw [hrec]
      simp [List.replicate_succ]

/-- Claim C3: for a fetch of a file not already present, the retry loop
behaves as the specified state machine — each checksum mismatch deletes
the partial file and counts against the active method's budget; the
primary method is abandoned for the fallback exactly once after
`max_retry + 1` failed attempts; failure arises only after exactly
`2 * (max_retry + 1)` transfer attempts (the first half primary, the
second half fallback, with the counter reset at the switch), and a
checksum match at any earlier attempt yields success. -/
theorem claim_C3_retry_state_machine (oracle : Nat → Bool → Option String)
    (md5 : String) (m : Nat) :
    ((download_fastq oracle none md5 m).success = false →
      (download_fastq oracle none md5 m).methods =
        List.replicate (m + 1) false ++ List.replicate (m + 1) true ∧
      (download_fastq oracle none md5 m).methods.length = 2 * (m + 1) ∧
      (download_fastq oracle none md5 m).final = none) ∧
    (∀ k, k < 2 * (m + 1) →
      oracle k (decide (m < k)) = some md5 →
      (∀ i, i < k → oracle i (decide (m < i)) ≠ some md5) →
      (download_fastq oracle none md5 m).success = true ∧
      (download_fastq oracle none md5 m).methods =
        List.replicate (min (k + 1) (m + 1)) false ++
          List.replicate (k + 1 - (m + 1)) true) := by
  constructor
  · intro h
    have h2 : (goPrimary oracle md5 m 0 (m + 1)).success = false := h
    have hfl := goPrimary_failure oracle md5 m (m + 1) 0 h2
    refine ⟨?_, ?_, ?_⟩
    · show (goPrimary oracle md5 m 0 (m + 1)).methods = _
      rw [hfl]
    · show (goPrimary oracle md5 m 0 (m + 1)).methods.length = _
      rw [hfl]
      simp
      omega
    · show (goPrimary oracle md5 m 0 (m + 1)).final = _
      rw [hfl]
  · intro k hk hsucc hfail
    by_cases hkm : k ≤ m
    · have hfail2 : ∀ i, i < k → oracle (0 + i) false ≠ some md5 := by
        intro i hi
        have hd := hfail i hi
        rw [decide_eq_false (by omega : ¬ m < i)] at hd
        simpa using hd
      have hsucc2 : oracle (0 + k) false = some md5 := by
        rw [decide_eq_false (by omega : ¬ m < k)] at hsucc
        simpa using hsucc
      have hps := goPrimary_firstSuccess oracle md5 m k (m + 1) 0
        (by omega) hfail2 hsucc2
      constructor
      · show (goPrimary oracle md5 m 0 (m + 1)).success = true
        rw [hps]
      · show (goPrimary oracle md5 m 0 (m + 1)).methods = _
        rw [hps]
        have e1 : min (k + 1) (m + 1) = k + 1 := by omega
        have e2 : k + 1 - (m + 1) = 0 := by omega
        rw [e1, e2]
        simp
    · have h1 : ∀ i, i < m + 1 → oracle (0 + i) false ≠ some md5 := by
        intro i hi
        have hd := hfail i (by omega)
        rw [decide_eq_false (by omega : ¬ m < i)] at hd
        simpa using hd
      have hsw := goPrimary_switch oracle md5 m (m + 1) 0 h1
      have hf2 : ∀ i, i < k - (m + 1) →
          oracle (0 + (m + 1) + i) true ≠ some md5 := by
        intro i hi
        have hd := hfail (m + 1 + i) (by omega)
        rw [decide_eq_true (by omega : m < m + 1 + i)] at hd
        have e : 0 + (m + 1) + i = m + 1 + i := by omega
        rw [e]
        exact hd
      have hs2 : oracle (0 + (m + 1) + (k - (m + 1))) true = some md5 := by
        have e : 0 + (m + 1) + (k - (m + 1)) = k := by omega
        rw [e]
        rw [decide_eq_true (by omega : m < k)] at hsucc
        exact hsucc
      have hfs := goFtp_firstSuccess oracle md5 (k - (m + 1)) (m + 1)
        (0 + (m + 1)) (by omega) hf2 hs2
      constructor
      · show (goPrimary oracle md5 m 0 (m + 1)).success = true
        rw [hsw, hfs]
      · show (goPrimary oracle md5 m 0 (m + 1)).methods = _
        rw [hsw, hfs]
        have e1 : min (k + 1) (m + 1) = m + 1 := by omega
        have e2 : k + 1 - (m + 1) = (k - (m + 1)) + 1 := by omega
        rw [e1, e2]

/-- Witness for C3: with `max_retry = 0`, an oracle failing at attempt 0
and matching at attempt 1 makes the fetch succeed with one primary and
one fallback attempt. -/
theorem claim_C3_retry_state_machine_witness :
    (download_fastq oracleC3 none "h" 0).success = true ∧
    (download_fastq oracleC3 none "h" 0).methods =
      List.replicate (min 2 1) false ++ List.replicate (2 - 1) true :=
  (claim_C3_retry_state_machine oracleC3 "h" 0).2 1 (by decide) (by decide)
    (fun i hi => by
      have h0 : i = 0 := by omega
      subst h0
      decide)

/-- Claim C10: whenever `download_fastq` returns with the success flag
false, no file is left at the destination path — every failed attempt
removed the partial file before retrying or aborting. -/
theorem claim_C10_failure_leaves_no_file (oracle : Nat → Bool → Option String)
    (existing : Option String) (md5 : String) (m : Nat)
    (h : (download_fastq oracle existing md5 m).success = false) :
    (download_fastq oracle existing md5 m).final = none := by
  match existing with
  | some c => simp [download_fastq] at h
  | none =>
    show (goPrimary oracle md5 m 0 (m + 1)).final = none
    have h2 : (goPrimary oracle md5 m 0 (m + 1)).success = false := h
    rw [goPrimary_failure oracle md5 m (m + 1) 0 h2]

/-- Witness for C10: the all-fail oracle gives a failed fetch, and no
file is left behind. -/
theorem claim_C10_failure_leaves_no_file_witness :
    (download_fastq oracleAllFail none "h" 0).final = none :=
  claim_C10_failure_leaves_no_file oracleAllFail none "h" 0 (by decide)

/-- Counterexample to C8 as stated: when the first fetch fails terminally
(leaving no file), a second fetch with the same arguments does perform
transfers, so "calling fetch twice with the same arguments performs no
transfer the second time" does not hold unconditionally. -/
theorem claim_C8_counterexample :
    (download_fastq oracleAllFail none "h" 0).success = false ∧
    (download_fastq oracleAllFail
        ((download_fastq oracleAllFail none "h" 0).final) "h" 0).methods ≠ [] := by
  decide

/-- Claim C8 (amended): if a file already exists at the destination path
derived from the primary locator's basename, `download_fastq` returns
success immediately, with no transfer attempt and no checksum
verification; hence when a first fetch succeeds, a second fetch of the
same file performs no transfer and no checksum verification. -/
theorem claim_C8_idempotent_short_circuit
    (oracle oracle2 : Nat → Bool → Option String) (fs : FS)
    (outdir fasp md5 : String) (m : Nat) :
    (∀ c, fs (destPath outdir fasp) = some c →
      download_fastq oracle (fs (destPath outdir fasp)) md5 m =
        ⟨true, [], 0, some c⟩) ∧
    ((download_fastq oracle none md5 m).success = true →
      download_fastq oracle2 (download_fastq oracle none md5 m).final md5 m =
        ⟨true, [], 0, (download_fastq oracle none md5 m).final⟩) := by
  constructor
  · intro c hc
    rw [hc]
    rfl
  · intro h
    have hf : (download_fastq oracle none md5 m).final = some md5 := by
      show (goPrimary oracle md5 m 0 (m + 1)).final = some md5
      exact goPrimary_success oracle md5 m (m + 1) 0 h
    rw [hf]
    rfl

/-- Witness for C8: a pre-existing file at the destination short-circuits
to success with no transfer and no checksum call. -/
theorem claim_C8_idempotent_short_circuit_witness :
    download_fastq oracleAllFail (some "C") "h" 0 = ⟨true, [], 0, some "C"⟩ :=
  (claim_C8_idempotent_short_circuit oracleAllFail oracleAllFail
    (fun _ => some "C") "o" "a" "h" 0).1 "C" rfl

/-- Appending a suffix makes `endsWithStr` true. -/
theorem endsWithStr_append (x s : String) : endsWithStr (x ++ s) s = true := by
  rw [endsWithStr, List.isSuffixOf_iff_suffix, String.data_append]
  exact List.suffix_append x.data s.data

/-- Two suffixes of the same string with equal length are equal. -/
theorem endsWith_unique (s a b : String) (ha : endsWithStr s a = true)
    (hb : endsWithStr s b = true) (hl : a.data.length = b.data.length) :
    a = b := by
  rw [endsWithStr, List.isSuffixOf_iff_suffix] at ha hb
  obtain ⟨ta, hta⟩ := ha
  obtain ⟨tb, htb⟩ := hb
  exact String.ext (List.append_inj' (hta.trans htb.symm) hl).2

/-- Claim C6: for a file of a PAIRED run whose name carries neither the
`_1.fastq.gz` nor the `_2.fastq.gz` marker — if the run has exactly one
physical file and its basename equals `<run_accession>.fastq.gz`, the
whole run is reclassified as SINGLE and the file becomes read-1; in
every other case the file is skipped entirely. -/
theorem claim_C6_naked_file_reclassification (acc path : String) (n : Nat)
    (h2 : endsWithStr path "_2.fastq.gz" = false)
    (h1 : endsWithStr path "_1.fastq.gz" = false) :
    (basename path = acc ++ ".fastq.gz" →
      classifyRun "PAIRED" acc [path] = ([some false], false)) ∧
    (¬ (n = 1 ∧ basename path = acc ++ ".fastq.gz") →
      classify_file true n acc path = (none, true)) := by
  constructor
  · intro hb
    simp [classifyRun, classifyFiles, classify_file, h1, h2, hb]
  · intro hn
    simp [classify_file, h1, h2, hn]

/-- Witness for C6: the PAIRED record ERR1143237 with the single naked
file `d/X.fastq.gz` reclassifies to SINGLE with the file as read-1. -/
theorem claim_C6_naked_file_reclassification_witness :
    classifyRun "PAIRED" "X" ["d/X.fastq.gz"] = ([some false], false) :=
  (claim_C6_naked_file_reclassification "X" "d/X.fastq.gz" 1
    (by decide) (by decide)).1 (by decide)

/-- Counterexample to C7 as stated: `X_2.fq.gz` has a suffix matching
the `_2.*` pattern, yet the source only tests for the literal suffix
`_2.fastq.gz`, so a PAIRED record with files `X_1.fq.gz`, `X_2.fq.gz`
classifies both as skipped instead of one read-1 and one read-2. -/
theorem claim_C7_counterexample :
    endsWithStr "X_2.fq.gz" ("_2." ++ "fq.gz") = true ∧
    classifyRun "PAIRED" "X" ["X_1.fq.gz", "X_2.fq.gz"] =
      ([none, none], true) := by
  decide

/-- Claim C7 (amended): for a file of a PAIRED run, the literal suffix
`_2.fastq.gz` classifies as read-2 and the literal suffix `_1.fastq.gz`
classifies as read-1; in particular a PAIRED record with files
`{X_1.fastq.gz, X_2.fastq.gz}` yields exactly one read-1 and one
read-2. -/
theorem claim_C7_suffix_classification :
    (∀ n acc path, endsWithStr path "_2.fastq.gz" = true →
      classify_file true n acc path = (some true, true)) ∧
    (∀ n acc path, endsWithStr path "_1.fastq.gz" = true →
      classify_file true n acc path = (some false, true)) ∧
    (∀ x acc,
      classifyRun "PAIRED" acc [x ++ "_1.fastq.gz", x ++ "_2.fastq.gz"] =
        ([some false, some true], true)) := by
  have hnot : ∀ path, endsWithStr path "_1.fastq.gz" = true →
      endsWithStr path "_2.fastq.gz" = false := by
    intro path h
    rcases Bool.eq_false_or_eq_true (endsWithStr path "_2.fastq.gz") with ht | hf
    · exact absurd (endsWith_unique path "_2.fastq.gz" "_1.fastq.gz" ht h
        (by decide)) (by decide)
    · exact hf
  refine ⟨?_, ?_, ?_⟩
  · intro n acc path h
    simp [classify_file, h]
  · intro n acc path h
    simp [classify_file, h, hnot path h]
  · intro x acc
    have e1 : endsWithStr (x ++ "_1.fastq.gz") "_1.fastq.gz" = true :=
      endsWithStr_append x "_1.fastq.gz"
    have e2 : endsWithStr (x ++ "_2.fastq.gz") "_2.fastq.gz" = true :=
      endsWithStr_append x "_2.fastq.gz"
    simp [classifyRun, classifyFiles, classify_file, e1, e2, hnot _ e1]

/-- Witness for C7 (amended): a concrete `_2.fastq.gz` file of a PAIRED
run classifies as read-2. -/
theorem claim_C7_suffix_classification_witness :
    classify_file true 2 "X" "a_2.fastq.gz" = (some true, true) :=
  claim_C7_suffix_classification.1 2 "X" "a_2.fastq.gz" (by decide)

/-- Appending distinct suffixes of equal length to the same string gives
distinct strings. -/
theorem append_suffix_ne (p a b : String) (hl : a.data.length = b.data.length)
    (hab : a ≠ b) : p ++ a ≠ p ++ b := by
  intro h
  apply hab
  apply String.ext
  have hd := congrArg String.data h
  simp only [String.data_append] at hd
  exact (List.append_inj' hd hl).2

/-- `mapM` over a file system succeeds on a list of present files and
returns their contents. -/
theorem mapM_eq_map (fs : FS) : ∀ runs : List String,
    (∀ p ∈ runs, (fs p).isSome = true) →
    runs.mapM fs = some (runs.map fun p => (fs p).getD "") := by
  intro runs
  induction runs with
  | nil => intro _; rfl
  | cons x xs ih =>
    intro h
    have hx : (fs x).isSome = true := h x (List.mem_cons_self x xs)
    obtain ⟨c, hc⟩ := Option.isSome_iff_exists.mp hx
    have hxs := ih (fun p hp => h p (List.mem_cons_of_mem x hp))
    rw [List.mapM_cons, hc, hxs]
    simp [hc]

/-- Pointwise description of removing a list of files. -/
theorem foldl_fsRemove_apply : ∀ (runs : List String) (g : FS) (q : String),
    (runs.foldl fsRemove g) q = if q ∈ runs then none else g q := by
  intro runs
  induction runs with
  | nil => intro g q; simp
  | cons x xs ih =>
    intro g q
    rw [List.foldl_cons, ih]
    by_cases hq : q ∈ xs
    · simp [hq]
    · by_cases hx : q = x
      · simp [fsRemove, hq, hx]
      · simp [fsRemove, hq, hx]

/-- Behaviour of `merge_runs` on a non-empty list of present files whose
target is not among them: it returns the concatenation at `output`, the
sources are gone, everything else is untouched, and the issued commands
are `cat`+`rm` (or a single `mv` for a one-element list). -/
theorem merge_runs_spec (fs : FS) (runs : List String) (output : String)
    (hne : runs ≠ [])
    (hex : ∀ p ∈ runs, (fs p).isSome = true)
    (hout : output ∉ runs) :
    ∃ fs2, merge_runs fs runs output = some (fs2, mergeCmds runs output) ∧
      fs2 output = some (String.join (runs.map fun p => (fs p).getD "")) ∧
      (∀ p ∈ runs, fs2 p = none) ∧
      (∀ q, q ∉ runs → q ≠ output → fs2 q = fs q) := by
  match runs, hne with
  | [x], _ =>
    have hx := hex x (by simp)
    obtain ⟨c, hc⟩ := Option.isSome_iff_exists.mp hx
    have hxo : output ≠ x := by
      intro h
      exact hout (by simp [h])
    refine ⟨fsWrite (fsRemove fs x) output c, ?_, ?_, ?_, ?_⟩
    · simp [merge_runs, mergeCmds, hc]
    · simp [fsWrite, hc, String.join]
    · intro p hp
      have hpx : p = x := by simpa using hp
      rw [hpx]
      have hxo2 : ¬ x = output := fun h => hxo h.symm
      simp [fsWrite, fsRemove, hxo2]
    · intro q hq hqo
      have hqx : q ≠ x := by simpa using hq
      simp [fsWrite, fsRemove, hqo, hqx]
  | x :: y :: rest, _ =>
    have hlen : 1 < (x :: y :: rest).length := by
      simp [List.length_cons]
    have hm := mapM_eq_map fs (x :: y :: rest) hex
    refine ⟨(x :: y :: rest).foldl fsRemove
      (fsWrite fs output
        (String.join ((x :: y :: rest).map fun p => (fs p).getD ""))),
      ?_, ?_, ?_, ?_⟩
    · simp only [merge_runs, mergeCmds]
      rw [if_pos hlen, if_pos hlen, hm]
    · rw [foldl_fsRemove_apply, if_neg hout]
      simp [fsWrite]
    · intro p hp
      rw [foldl_fsRemove_apply, if_pos hp]
    · intro q hq hqo
      rw [foldl_fsRemove_apply, if_neg hq]
      simp [fsWrite, hqo]

/-- Claim C4: a group with both read slots non-empty and of equal length
merges into exactly the two outputs `{name}_R1.fastq.gz` and
`{name}_R2.fastq.gz`, each the byte-level concatenation of its slot's
files in accumulated order; all source files are deleted afterwards, no
other path changes, and a one-element slot is moved (`mv`) rather than
concatenated (`cat`+`rm`), as recorded by the issued commands. -/
theorem claim_C4_paired_merge (fs : FS) (outdir name : String)
    (r1s r2s : List String)
    (h1 : r1s ≠ []) (h2 : r2s ≠ [])
    (hlen : r1s.length = r2s.length)
    (hex : ∀ p ∈ r1s ++ r2s, (fs p).isSome = true)
    (hnd : (r1s ++ r2s).Nodup)
    (ho1 : (outdir ++ "/" ++ name ++ "_R1.fastq.gz") ∉ r1s ++ r2s)
    (ho2 : (outdir ++ "/" ++ name ++ "_R2.fastq.gz") ∉ r1s ++ r2s) :
    ∃ fs2, mergeGroup fs outdir name r1s r2s =
        some (fs2, mergeCmds r1s (outdir ++ "/" ++ name ++ "_R1.fastq.gz") ++
                   mergeCmds r2s (outdir ++ "/" ++ name ++ "_R2.fastq.gz")) ∧
      fs2 (outdir ++ "/" ++ name ++ "_R1.fastq.gz") =
        some (String.join (r1s.map fun p => (fs p).getD "")) ∧
      fs2 (outdir ++ "/" ++ name ++ "_R2.fastq.gz") =
        some (String.join (r2s.map fun p => (fs p).getD "")) ∧
      (∀ p ∈ r1s ++ r2s, fs2 p = none) ∧
      (∀ q, q ∉ r1s ++ r2s →
        q ≠ outdir ++ "/" ++ name ++ "_R1.fastq.gz" →
        q ≠ outdir ++ "/" ++ name ++ "_R2.fastq.gz" → fs2 q = fs q) := by
  obtain ⟨hnd1, hnd2, hdisj⟩ := List.nodup_append.mp hnd
  have hoo : (outdir ++ "/" ++ name ++ "_R1.fastq.gz") ≠
      (outdir ++ "/" ++ name ++ "_R2.fastq.gz") :=
    append_suffix_ne (outdir ++ "/" ++ name) "_R1.fastq.gz" "_R2.fastq.gz"
      (by decide) (by decide)
  have hout1 : (outdir ++ "/" ++ name ++ "_R1.fastq.gz") ∉ r1s :=
    fun h => ho1 (List.mem_append_left _ h)
  obtain ⟨fsa, hma, houta, hdela, hframea⟩ :=
    merge_runs_spec fs r1s (outdir ++ "/" ++ name ++ "_R1.fastq.gz") h1
      (fun p hp => hex p (List.mem_append_left _ hp)) hout1
  have hex2 : ∀ p ∈ r2s, (fsa p).isSome = true := by
    intro p hp
    rw [hframea p (fun hpin => (hdisj hpin hp).elim)
      (fun h => ho1 (h ▸ List.mem_append_right _ hp))]
    exact hex p (List.mem_append_right _ hp)
  have hout2 : (outdir ++ "/" ++ name ++ "_R2.fastq.gz") ∉ r2s :=
    fun h => ho2 (List.mem_append_right _ h)
  obtain ⟨fsb, hmb, houtb, hdelb, hframeb⟩ :=
    merge_runs_spec fsa r2s (outdir ++ "/" ++ name ++ "_R2.fastq.gz") h2
      hex2 hout2
  refine ⟨fsb, ?_, ?_, ?_, ?_, ?_⟩
  · simp only [mergeGroup]
    rw [if_pos ⟨List.length_pos.mpr h1, List.length_pos.mpr h2⟩, if_pos hlen]
    simp only [hma, hmb]
  · rw [hframeb _ (fun h => ho1 (List.mem_append_right _ h)) hoo, houta]
  · rw [houtb]
    have hmap : List.map (fun p => (fsa p).getD "") r2s =
        List.map (fun p => (fs p).getD "") r2s := by
      apply List.map_congr_left
      intro p hp
      rw [hframea p (fun hpin => (hdisj hpin hp).elim)
        (fun h => ho1 (h ▸ List.mem_append_right _ hp))]
    rw [hmap]
  · intro p hp
    rcases List.mem_append.mp hp with hp1 | hp2
    · rw [hframeb p (fun h => (hdisj hp1 h).elim)
        (fun h => ho2 (h ▸ List.mem_append_left _ hp1))]
      exact hdela p hp1
    · exact hdelb p hp2
  · intro q hq hq1 hq2
    rw [hframeb q (fun h => hq (List.mem_append_right _ h)) hq2,
      hframea q (fun h => hq (List.mem_append_left _ h)) hq1]

/-- Witness for C4: a group with read-1 = [a, b] and read-2 = [c, d]
produces the two concatenated outputs, deletes a, b, c, d, and issues
`cat`+`rm` for each slot. -/
theorem claim_C4_paired_merge_witness :
    ∃ fs2, mergeGroup fs4 "o" "G" ["a", "b"] ["c", "d"] =
        some (fs2, mergeCmds ["a", "b"] ("o" ++ "/" ++ "G" ++ "_R1.fastq.gz") ++
                   mergeCmds ["c", "d"] ("o" ++ "/" ++ "G" ++ "_R2.fastq.gz")) ∧
      fs2 ("o" ++ "/" ++ "G" ++ "_R1.fastq.gz") =
        some (String.join (["a", "b"].map fun p => (fs4 p).getD "")) ∧
      fs2 ("o" ++ "/" ++ "G" ++ "_R2.fastq.gz") =
        some (String.join (["c", "d"].map fun p => (fs4 p).getD "")) ∧
      (∀ p ∈ ["a", "b"] ++ ["c", "d"], fs2 p = none) ∧
      (∀ q, q ∉ ["a", "b"] ++ ["c", "d"] →
        q ≠ "o" ++ "/" ++ "G" ++ "_R1.fastq.gz" →
        q ≠ "o" ++ "/" ++ "G" ++ "_R2.fastq.gz" → fs2 q = fs4 q) :=
  claim_C4_paired_merge fs4 "o" "G" ["a", "b"] ["c", "d"]
    (by decide) (by decide) (by decide) (by decide) (by decide)
    (by decide) (by decide)

/-- Counterexample to C5 as stated: a group whose read-1 slot is empty
and whose read-2 slot is non-empty has unequal slot lengths, yet the
merge step crashes (`runs[0]` on an empty list) instead of producing a
`{group}.fastq.gz` output. -/
theorem claim_C5_counterexample :
    mergeGroup (fun q => if q = "c" then some "C" else none) "o" "G"
      [] ["c"] = none := rfl

/-- Claim C5 (amended): for a group whose read-1 slot is non-empty and
whose read-2 slot is empty or of different length than read-1, merging
produces exactly one output `{name}.fastq.gz` from the read-1 slot only
(concatenate-or-move), and every other path — in particular any orphaned
read-2 file not also listed in read-1 — is left untouched. -/
theorem claim_C5_single_merge (fs : FS) (outdir name : String)
    (r1s r2s : List String)
    (h1 : r1s ≠ [])
    (hcase : r2s = [] ∨ r1s.length ≠ r2s.length)
    (hex : ∀ p ∈ r1s, (fs p).isSome = true)
    (hout : (outdir ++ "/" ++ name ++ ".fastq.gz") ∉ r1s) :
    ∃ fs2, mergeGroup fs outdir name r1s r2s =
        some (fs2, mergeCmds r1s (outdir ++ "/" ++ name ++ ".fastq.gz")) ∧
      fs2 (outdir ++ "/" ++ name ++ ".fastq.gz") =
        some (String.join (r1s.map fun p => (fs p).getD "")) ∧
      (∀ p ∈ r1s, fs2 p = none) ∧
      (∀ q, q ∉ r1s → q ≠ outdir ++ "/" ++ name ++ ".fastq.gz" →
        fs2 q = fs q) := by
  obtain ⟨fs2, hm, hout2, hdel, hframe⟩ :=
    merge_runs_spec fs r1s (outdir ++ "/" ++ name ++ ".fastq.gz") h1 hex hout
  refine ⟨fs2, ?_, hout2, hdel, hframe⟩
  rcases hcase with hc | hc
  · subst hc
    simp only [mergeGroup]
    rw [if_neg (by simp)]
    exact hm
  · simp only [mergeGroup]
    by_cases hpos : 0 < r1s.length ∧ 0 < r2s.length
    · rw [if_pos hpos, if_neg hc]
      exact hm
    · rw [if_neg hpos]
      exact hm

/-- Witness for C5 (amended): read-1 = [a, b] against the orphaned
read-2 = [c] merges into the single output `G.fastq.gz` and leaves the
orphan `c` on disk untouched. -/
theorem claim_C5_single_merge_witness :
    ∃ fs2, mergeGroup fs5 "o" "G" ["a", "b"] ["c"] =
        some (fs2, mergeCmds ["a", "b"] ("o" ++ "/" ++ "G" ++ ".fastq.gz")) ∧
      fs2 ("o" ++ "/" ++ "G" ++ ".fastq.gz") =
        some (String.join (["a", "b"].map fun p => (fs5 p).getD "")) ∧
      (∀ p ∈ ["a", "b"], fs2 p = none) ∧
      (∀ q, q ∉ ["a", "b"] → q ≠ "o" ++ "/" ++ "G" ++ ".fastq.gz" →
        fs2 q = fs5 q) :=
  claim_C5_single_merge fs5 "o" "G" ["a", "b"] ["c"]
    (by decide) (Or.inr (by decide)) (by decide) (by decide)

/-- Counterexample to C2 as stated: for a group `G` accumulated as
read-1 = [a], read-2 = [], the merge moves `a` to `o/G.fastq.gz`, but
the manifest written afterwards maps `G` to the pre-merge source lists
(`["a"]` and `[]`), which do not contain the merged output path. -/
theorem claim_C2_counterexample :
    (mergeAndManifest "o" fsC2 [("G", (["a"], []))]).map Prod.snd =
      some [("G", (["a"], []))] ∧
    (mergePhase "o" fsC2 [("G", (["a"], []))]).map
        (fun f => f ("o" ++ "/" ++ "G" ++ ".fastq.gz")) = some (some "A") ∧
    ("o" ++ "/" ++ "G" ++ ".fastq.gz") ∉ (["a"] : List String) := by
  refine ⟨rfl, rfl, by decide⟩

/-- Claim C2 (amended): the merge manifest written at the end is exactly
the group accumulator — each group key maps to the r1/r2 source path
lists that were the inputs of the merge, not to the merged output
paths. -/
theorem claim_C2_manifest_is_accumulator (fs : FS) (outdir : String)
    (groups : List (String × List String × List String)) (fs2 : FS)
    (m : List (String × List String × List String))
    (h : mergeAndManifest outdir fs groups = some (fs2, m)) :
    m = groups := by
  unfold mergeAndManifest at h
  cases hmp : mergePhase outdir fs groups with
  | none =>
    rw [hmp] at h
    exact absurd h (by simp)
  | some fsf =>
    rw [hmp] at h
    simp only [Option.some.injEq, Prod.mk.injEq] at h
    exact h.2.symm

/-- Witness for C2 (amended): the single-group merge scenario has a
manifest, and it equals the accumulator it was built from. -/
theorem claim_C2_manifest_is_accumulator_witness :
    ([("G", (["a"], []))] : List (String × List String × List String)) =
      [("G", (["a"], []))] :=
  claim_C2_manifest_is_accumulator fsC2 "o" [("G", (["a"], []))]
    (fsWrite (fsRemove fsC2 "a") ("o" ++ "/" ++ "G" ++ ".fastq.gz") "A")
    [("G", (["a"], []))] rfl

/-- `appendRun` never changes the keys of the accumulator. -/
theorem appendRun_keys (runs : List (String × List String × List String))
    (name : String) (isR2 : Bool) (fastq : String) :
    (appendRun runs name isR2 fastq).map Prod.fst = runs.map Prod.fst := by
  rw [appendRun, List.map_map]
  apply List.map_congr_left
  intro e he
  by_cases h : e.1 = name <;> simp [h]

/-- `name in runs` agrees with membership in the key list. -/
theorem hasKey_iff (runs : List (String × List String × List String))
    (name : String) :
    hasKey runs name = true ↔ name ∈ runs.map Prod.fst := by
  simp [hasKey, List.any_eq_true, List.mem_map]

/-- The MiSeq flag after one grouping step: it changes only when the
step creates the group entry, and then only according to that run's
instrument model. -/
theorem coordStep_is_miseq (acc : GroupAcc) (n i : String) (b : Bool)
    (f : String) :
    (coordStep acc n i b f).is_miseq =
      (acc.is_miseq || (!(hasKey acc.runs n) && containsMiseq i)) := by
  cases hk : hasKey acc.runs n with
  | true => simp [coordStep, hk]
  | false => cases hm : containsMiseq i <;> simp [coordStep, hk, hm]

/-- The keys after one grouping step: unchanged for an existing key,
extended at the end for a new one. -/
theorem coordStep_keys (acc : GroupAcc) (n i : String) (b : Bool)
    (f : String) :
    groupKeys (coordStep acc n i b f) =
      if n ∈ groupKeys acc then groupKeys acc
      else groupKeys acc ++ [n] := by
  simp only [groupKeys]
  cases hk : hasKey acc.runs n with
  | true =>
    rw [if_pos ((hasKey_iff acc.runs n).mp hk)]
    simp [coordStep, hk, appendRun_keys]
  | false =>
    have hnm : n ∉ acc.runs.map Prod.fst := fun hm =>
      absurd ((hasKey_iff acc.runs n).mpr hm) (by simp [hk])
    rw [if_neg hnm]
    simp [coordStep, hk, appendRun_keys]

/-- Unfolding one grouping event. -/
theorem coordFold_cons (e : String × String × Bool × String)
    (es : List (String × String × Bool × String)) (acc : GroupAcc) :
    coordFold (e :: es) acc =
      coordFold es (coordStep acc e.1 e.2.1 e.2.2.1 e.2.2.2) := rfl

/-- The MiSeq flag after a sequence of successful fetches is set exactly
by the fetches that created a new group entry (the first fetch of each
key not already present) whose run's instrument model matches. -/
theorem coordFold_is_miseq (events : List (String × String × Bool × String)) :
    ∀ acc : GroupAcc,
    ((coordFold events acc).is_miseq = true ↔
      (acc.is_miseq = true ∨ ∃ pre ev post, events = pre ++ ev :: post ∧
        containsMiseq ev.2.1 = true ∧ ev.1 ∉ groupKeys acc ∧
        ev.1 ∉ pre.map (fun x => x.1))) := by
  induction events with
  | nil =>
    intro acc
    constructor
    · intro h
      exact Or.inl h
    · rintro (h | ⟨pre, ev, post, heq, _, _, _⟩)
      · exact h
      · exact absurd heq.symm (List.append_ne_nil_of_right_ne_nil pre
          (List.cons_ne_nil ev post))
  | cons e es ih =>
    intro acc
    rw [coordFold_cons, ih, coordStep_is_miseq, coordStep_keys]
    by_cases hk : e.1 ∈ groupKeys acc
    · rw [if_pos hk]
      have hkb : hasKey acc.runs e.1 = true := (hasKey_iff acc.runs e.1).mpr hk
      rw [hkb]
      simp only [Bool.not_true, Bool.false_and, Bool.or_false]
      constructor
      · rintro (hf | ⟨pre, ev, post, heq, hcm, hmem, hpre⟩)
        · exact Or.inl hf
        · refine Or.inr ⟨e :: pre, ev, post, by rw [heq, List.cons_append],
            hcm, hmem, ?_⟩
          simp only [List.map_cons, List.mem_cons, not_or]
          exact ⟨fun h => hmem (by rw [h]; exact hk), hpre⟩
      · rintro (hf | ⟨pre, ev, post, heq, hcm, hmem, hpre⟩)
        · exact Or.inl hf
        · match pre, heq, hpre with
          | [], heq, hpre =>
            obtain ⟨rfl, rfl⟩ : e = ev ∧ es = post := by simpa using heq
            exact absurd hk hmem
          | p0 :: pre2, heq, hpre =>
            obtain ⟨rfl, heq2⟩ : e = p0 ∧ es = pre2 ++ ev :: post := by
              simpa using heq
            simp only [List.map_cons, List.mem_cons, not_or] at hpre
            exact Or.inr ⟨pre2, ev, post, heq2, hcm, hmem, hpre.2⟩
    · rw [if_neg hk]
      have hkb : hasKey acc.runs e.1 = false := by
        cases hh : hasKey acc.runs e.1
        · rfl
        · exact absurd ((hasKey_iff acc.runs e.1).mp hh) hk
      rw [hkb]
      simp only [Bool.not_false, Bool.true_and, Bool.or_eq_true]
      constructor
      · rintro ((hf | hcm) | ⟨pre, ev, post, heq, hcm, hmem, hpre⟩)
        · exact Or.inl hf
        · exact Or.inr ⟨[], e, es, rfl, hcm, hk, by simp⟩
        · simp only [List.mem_append, List.mem_singleton, not_or] at hmem
          refine Or.inr ⟨e :: pre, ev, post, by rw [heq, List.cons_append],
            hcm, hmem.1, ?_⟩
          simp only [List.map_cons, List.mem_cons, not_or]
          exact ⟨hmem.2, hpre⟩
      · rintro (hf | ⟨pre, ev, post, heq, hcm, hmem, hpre⟩)
        · exact Or.inl (Or.inl hf)
        · match pre, heq, hpre with
          | [], heq, hpre =>
            obtain ⟨rfl, rfl⟩ : e = ev ∧ es = post := by simpa using heq
            exact Or.inl (Or.inr hcm)
          | p0 :: pre2, heq, hpre =>
            obtain ⟨rfl, heq2⟩ : e = p0 ∧ es = pre2 ++ ev :: post := by
              simpa using heq
            simp only [List.map_cons, List.mem_cons, not_or] at hpre
            refine Or.inr ⟨pre2, ev, post, heq2, hcm, ?_, hpre.2⟩
            simp only [List.mem_append, List.mem_singleton, not_or]
            exact ⟨hmem, hpre.1⟩

/-- Counterexample to C9 as stated: a group whose first fetched run uses
a HiSeq and whose second uses a MiSeq ends with the flag false, although
a member run's instrument model contains a case-insensitive miseq
marker — the flag is not order-independent over the group's members. -/
theorem claim_C9_counterexample :
    containsMiseq "MiSeq" = true ∧
    (coordFold [("G", ("HiSeq 2500", (false, "f1"))),
                ("G", ("MiSeq", (false, "f2")))] ⟨[], false⟩).is_miseq =
      false := by
  decide

/-- Claim C9 (amended): the MiSeq flag reported for grouped output is
true if and only if some successful fetch whose group key appears for
the first time — the fetch that creates the group's accumulator entry —
belongs to a run whose instrument model contains a case-insensitive
miseq marker; members fetched after their group entry exists never
affect the flag. -/
theorem claim_C9_first_member_flag
    (events : List (String × String × Bool × String)) :
    (coordFold events ⟨[], false⟩).is_miseq = true ↔
      ∃ pre ev post, events = pre ++ ev :: post ∧
        containsMiseq ev.2.1 = true ∧
        ev.1 ∉ pre.map (fun x => x.1) := by
  rw [coordFold_is_miseq]
  simp [groupKeys]

/-- Claim C1 (recording the code bug): when the only file of the first
record fails terminally — the all-fail oracle makes `download_fastq`
exhaust both methods' budgets and return failure — the record loop stops
before the second record (the accumulator stays empty), but it
terminates through the bare `sys.exit()` of source line 296, i.e. with
process exit status 0 rather than the non-zero status the claim
requires. -/
theorem claim_C1_halt_with_exit_zero :
    (download_fastq oracleAllFail none "m1" 10).success = false ∧
    processRecords
        (fun _ _ => (download_fastq oracleAllFail none "m1" 10).success)
        true false "out" [recFail, recOk] =
      Outcome.exited 0 ⟨[], false⟩ := by
  decide

end EnaDl
